import Mathlib

/-!
Verification of the movie-recommender front end (`src/app.py`).

The file embeds the logic of `app.py` in Lean:

* the catalog (`movies`, a pandas frame of `movie_id`/`title` rows) becomes a
  `List Movie`; the precomputed `similarity` matrix becomes a `List (List ℚ)`
  (the similarity scores are numeric and are only ever compared, so they are
  modelled by rationals);
* `recommend` (lines 140-155) resolves the query title to the first matching
  row index, sorts `enumerate(similarity[index])` descending by score with
  Python's stable `sorted(..., reverse=True, key=lambda x: x[1])`, slices
  `[1:6]`, and maps each surviving index to a rendered entry whose poster and
  trailer come from the TMDB fetchers.  The fetchers are side-effecting HTTP
  calls that return a URL or `None`; they are modelled as oracle parameters
  `Nat → Option String`;
* `update_history` (lines 168-172) and `safe_image` (lines 59-60) are
  translated directly.

Python's `sorted` is a stable sort, and with `reverse=True` equal-key elements
still keep their original order; any stable sort has the same input/output
behaviour, so it is embedded as a stable insertion sort (`sortDesc`).
-/

open List

/-- A catalog row of the `movies` frame: a `movie_id` and a `title`. -/
structure Movie where
  movie_id : Nat
  title : String
deriving DecidableEq, Repr, Inhabited

/-- One rendered recommendation, as built in `recommend` (lines 149-153):
a title together with the (possibly failed, hence optional) poster and
trailer fetch results. -/
structure RecEntry where
  title : String
  poster : Option String
  trailer : Option String
deriving DecidableEq, Repr

/-- The placeholder image URL of `safe_image` (line 60). -/
def no_image_icon : String := "https://i.ibb.co/ZVFsg37/no-image-icon.png"

/-- `safe_image` (lines 59-60): `return url if url else placeholder`.
A Python URL value is falsy exactly when it is `None` or the empty string,
so the argument is an `Option String` and both `none` and `some ""` take the
placeholder branch. -/
def safe_image (url : Option String) : String :=
  match url with
  | none => no_image_icon
  | some u => if u = "" then no_image_icon else u

/-- The enrichment oracle in which every fetch attempt fails:
`fetch_poster`/`fetch_trailer` (lines 66-90) return `None` after the retries
are exhausted or on any exception. -/
def nullFetch : Nat → Option String := fun _ => none

/-- An enrichment oracle in which every fetch succeeds with a fixed URL;
used to compare runs against `nullFetch`. -/
def constFetch : Nat → Option String := fun _ => some "https://example.org/x"

/-- `movies[movies["title"] == movie].index[0]` (line 141): the positional
index of the first catalog row whose title equals the query, `none` when no
row matches (in Python the `[0]` lookup then raises, i.e. the not-found
error propagates). -/
def firstTitleIndex (title : String) : List Movie → Option Nat
  | [] => none
  | m :: ms =>
    if m.title = title then some 0
    else (firstTitleIndex title ms).map (· + 1)

/-- Python's `enumerate`, starting at `start`: pairs each score with its
row position. -/
def enumerate (start : Nat) : List ℚ → List (Nat × ℚ)
  | [] => []
  | s :: ss => (start, s) :: enumerate (start + 1) ss

/-- One insertion step of the stable descending sort: the inserted element
`x` comes from earlier in the input than every element of the list, so on an
equal score `x` stays in front (stability). -/
def insertDesc (x : Nat × ℚ) : List (Nat × ℚ) → List (Nat × ℚ)
  | [] => [x]
  | y :: ys => if y.2 ≤ x.2 then x :: y :: ys else y :: insertDesc x ys

/-- Stable sort, descending by score: the model of
`sorted(..., reverse=True, key=lambda x: x[1])` (line 142). -/
def sortDesc : List (Nat × ℚ) → List (Nat × ℚ)
  | [] => []
  | x :: xs => insertDesc x (sortDesc xs)

/-- `distances` of `recommend` (line 142): the similarity row of the resolved
index, enumerated and stably sorted descending by score. -/
def rankedDistances (similarity : List (List ℚ)) (index : Nat) : List (Nat × ℚ) :=
  sortDesc (enumerate 0 (similarity.getD index []))

/-- The slice `distances[1:k+1]`: drop the first ranked entry, take the next
`k`.  The source (line 145) hardcodes `k = 5` (`distances[1:6]`), the spec's
default `K`. -/
def rankedWindow (similarity : List (List ℚ)) (index k : Nat) : List (Nat × ℚ) :=
  ((rankedDistances similarity index).drop 1).take k

/-- Building one recommendation entry (lines 146-153): the candidate index is
mapped back to its catalog row, and the poster/trailer oracles are called on
that row's `movie_id`. -/
def mkEntry (movies : List Movie) (fetch_poster fetch_trailer : Nat → Option String)
    (i : Nat × ℚ) : RecEntry :=
  let recMovie := movies.getD i.1 default
  { title := recMovie.title
    poster := fetch_poster recMovie.movie_id
    trailer := fetch_trailer recMovie.movie_id }

/-- `recommend` (lines 140-155) generalized over the slice width `k`
(the spec's `K` parameter; the source hardcodes `k = 5`).  Returns `none`
when the query title matches no catalog row (the uncaught lookup error of
line 141). -/
def recommendK (movies : List Movie) (similarity : List (List ℚ))
    (fetch_poster fetch_trailer : Nat → Option String) (movie : String)
    (k : Nat) : Option (List RecEntry) :=
  (firstTitleIndex movie movies).map fun index =>
    (rankedWindow similarity index k).map (mkEntry movies fetch_poster fetch_trailer)

/-- `recommend` (lines 140-155) exactly as in the source: slice
`distances[1:6]`, i.e. `k = 5`. -/
def recommend (movies : List Movie) (similarity : List (List ℚ))
    (fetch_poster fetch_trailer : Nat → Option String) (movie : String) :
    Option (List RecEntry) :=
  recommendK movies similarity fetch_poster fetch_trailer movie 5

/-- `update_history` (lines 168-172): append `movie_id` unless the history is
nonempty with `movie_id` as its last element (`history[-1] != movie_id`), then
`pop(0)` when the length exceeds 5. -/
def update_history (history : List Nat) (movie_id : Nat) : List Nat :=
  if history = [] ∨ history.getLast? ≠ some movie_id then
    let h := history ++ [movie_id]
    if 5 < h.length then h.tail else h
  else history

/-- The history reached from the empty session state by a sequence of
`update_history` calls (the session starts with `history = []`, line 20). -/
def runHistory (ids : List Nat) : List Nat :=
  ids.foldl update_history []

/-- The strict ranking order realized by the stable descending sort of an
enumerated row: earlier entries have a strictly larger score, or an equal
score and a smaller original row position. -/
def rankedBefore (a b : Nat × ℚ) : Prop :=
  b.2 < a.2 ∨ (a.2 = b.2 ∧ a.1 < b.1)

theorem insertDesc_perm (x : Nat × ℚ) (l : List (Nat × ℚ)) :
    insertDesc x l ~ x :: l := by
  induction l with
  | nil => simp [insertDesc]
  | cons y ys ih =>
    simp only [insertDesc]
    split
    · exact List.Perm.refl _
    · exact (List.Perm.cons y ih).trans (List.Perm.swap x y ys)

theorem sortDesc_perm (l : List (Nat × ℚ)) : sortDesc l ~ l := by
  induction l with
  | nil => exact List.Perm.refl _
  | cons x xs ih => exact (insertDesc_perm x (sortDesc xs)).trans (List.Perm.cons x ih)

theorem mem_sortDesc {a : Nat × ℚ} {l : List (Nat × ℚ)} :
    a ∈ sortDesc l ↔ a ∈ l :=
  (sortDesc_perm l).mem_iff

theorem sortDesc_length (l : List (Nat × ℚ)) :
    (sortDesc l).length = l.length :=
  (sortDesc_perm l).length_eq

theorem le_snd_of_rankedBefore {a b : Nat × ℚ} (h : rankedBefore a b) :
    b.2 ≤ a.2 := by
  rcases h with h | ⟨h, _⟩
  · exact le_of_lt h
  · exact le_of_eq h.symm

theorem insertDesc_pairwise {x : Nat × ℚ} {l : List (Nat × ℚ)}
    (hx : ∀ y ∈ l, x.1 < y.1) (hl : l.Pairwise rankedBefore) :
    (insertDesc x l).Pairwise rankedBefore := by
  induction l with
  | nil => simp [insertDesc, List.Pairwise]
  | cons y ys ih =>
    rcases List.pairwise_cons.mp hl with ⟨hy, hys⟩
    simp only [insertDesc]
    split
    · rename_i hle
      refine List.pairwise_cons.mpr ⟨?_, hl⟩
      intro z hz
      rcases List.mem_cons.mp hz with hz | hz
      · rw [hz]
        rcases lt_or_eq_of_le hle with h | h
        · exact Or.inl h
        · exact Or.inr ⟨h.symm, hx y (List.mem_cons_self y ys)⟩
      · have hzy : z.2 ≤ y.2 := le_snd_of_rankedBefore (hy z hz)
        rcases lt_or_eq_of_le (le_trans hzy hle) with h | h
        · exact Or.inl h
        · exact Or.inr ⟨h.symm, hx z (List.mem_cons_of_mem y hz)⟩
    · rename_i hgt
      push_neg at hgt
      refine List.pairwise_cons.mpr ⟨?_, ?_⟩
      · intro z hz
        rcases List.mem_cons.mp ((insertDesc_perm x ys).mem_iff.mp hz) with hz | hz
        · rw [hz]
          exact Or.inl hgt
        · exact hy z hz
      · exact ih (fun z hz => hx z (List.mem_cons_of_mem y hz)) hys

theorem sortDesc_pairwise {l : List (Nat × ℚ)}
    (h : l.Pairwise fun a b => a.1 < b.1) :
    (sortDesc l).Pairwise rankedBefore := by
  induction l with
  | nil => simp [sortDesc, List.Pairwise]
  | cons x xs ih =>
    rcases List.pairwise_cons.mp h with ⟨hx, hxs⟩
    exact insertDesc_pairwise
      (fun y hy => hx y (mem_sortDesc.mp hy)) (ih hxs)

theorem enumerate_length (start : Nat) (l : List ℚ) :
    (enumerate start l).length = l.length := by
  induction l generalizing start with
  | nil => rfl
  | cons s ss ih => simp [enumerate, ih]

theorem le_fst_of_mem_enumerate {start : Nat} {l : List ℚ} {x : Nat × ℚ}
    (h : x ∈ enumerate start l) : start ≤ x.1 := by
  induction l generalizing start with
  | nil => simp [enumerate] at h
  | cons s ss ih =>
    rcases List.mem_cons.mp h with h | h
    · rw [h]
    · exact le_trans (Nat.le_succ start) (ih h)

theorem enumerate_pairwise (start : Nat) (l : List ℚ) :
    (enumerate start l).Pairwise fun a b => a.1 < b.1 := by
  induction l generalizing start with
  | nil => simp [enumerate]
  | cons s ss ih =>
    refine List.pairwise_cons.mpr ⟨?_, ih (start + 1)⟩
    intro y hy
    exact lt_of_lt_of_le (Nat.lt_succ_self start) (le_fst_of_mem_enumerate hy)

theorem mem_enumerate_spec {start : Nat} {l : List ℚ} {x : Nat × ℚ}
    (h : x ∈ enumerate start l) :
    ∃ k, k < l.length ∧ x = (start + k, l.getD k 0) := by
  induction l generalizing start with
  | nil => simp [enumerate] at h
  | cons s ss ih =>
    rcases List.mem_cons.mp h with h | h
    · exact ⟨0, by simp, by simp [h]⟩
    · rcases ih h with ⟨k, hk, hx⟩
      refine ⟨k + 1, by simpa using hk, ?_⟩
      rw [hx]
      simp [List.getD_cons_succ]
      omega

theorem enumerate_mem (start k : Nat) (l : List ℚ) (hk : k < l.length) :
    (start + k, l.getD k 0) ∈ enumerate start l := by
  induction l generalizing start k with
  | nil => simp at hk
  | cons s ss ih =>
    cases k with
    | zero => simp [enumerate]
    | succ k =>
      have := ih (start + 1) k (by simpa using hk)
      refine List.mem_cons_of_mem _ ?_
      have harith : start + 1 + k = start + (k + 1) := by omega
      simpa [harith, List.getD_cons_succ] using this

theorem rankedDistances_pairwise (similarity : List (List ℚ)) (index : Nat) :
    (rankedDistances similarity index).Pairwise rankedBefore :=
  sortDesc_pairwise (enumerate_pairwise 0 _)

theorem rankedDistances_perm (similarity : List (List ℚ)) (index : Nat) :
    rankedDistances similarity index ~ enumerate 0 (similarity.getD index []) :=
  sortDesc_perm _

theorem rankedDistances_length (similarity : List (List ℚ)) (index : Nat) :
    (rankedDistances similarity index).length = (similarity.getD index []).length := by
  rw [rankedDistances, sortDesc_length, enumerate_length]

theorem mem_rankedDistances_spec {similarity : List (List ℚ)} {index : Nat}
    {x : Nat × ℚ} (h : x ∈ rankedDistances similarity index) :
    x.1 < (similarity.getD index []).length
      ∧ x.2 = (similarity.getD index []).getD x.1 0 := by
  have hmem : x ∈ enumerate 0 (similarity.getD index []) :=
    (rankedDistances_perm similarity index).mem_iff.mp h
  rcases mem_enumerate_spec hmem with ⟨k, hk, hx⟩
  rw [hx]
  simpa using hk

theorem rankedDistances_fst_ne (similarity : List (List ℚ)) (index : Nat) :
    (rankedDistances similarity index).Pairwise fun a b => a.1 ≠ b.1 := by
  exact ((rankedDistances_perm similarity index).pairwise_iff
      fun h => h.symm).mpr
    ((enumerate_pairwise 0 _).imp fun h => Nat.ne_of_lt h)

theorem rankedWindow_length (similarity : List (List ℚ)) (index k : Nat) :
    (rankedWindow similarity index k).length
      = min k ((similarity.getD index []).length - 1) := by
  rw [rankedWindow, List.length_take, List.length_drop, rankedDistances_length]

theorem rankedWindow_sublist (similarity : List (List ℚ)) (index k : Nat) :
    rankedWindow similarity index k <+ rankedDistances similarity index :=
  (List.take_sublist _ _).trans (List.drop_sublist _ _)

theorem rankedWindow_pairwise (similarity : List (List ℚ)) (index k : Nat) :
    (rankedWindow similarity index k).Pairwise rankedBefore :=
  (rankedDistances_pairwise similarity index).sublist
    (rankedWindow_sublist similarity index k)

theorem rankedDistances_head_of_strictmax (similarity : List (List ℚ))
    (index : Nat)
    (hlen : index < (similarity.getD index []).length)
    (hmax : ∀ j < (similarity.getD index []).length, j ≠ index →
      (similarity.getD index []).getD j 0 < (similarity.getD index []).getD index 0) :
    ∃ t, rankedDistances similarity index
        = (index, (similarity.getD index []).getD index 0) :: t
      ∧ ∀ x ∈ t, x.1 ≠ index ∧ x.1 < (similarity.getD index []).length := by
  have hne : rankedDistances similarity index ≠ [] := by
    intro hnil
    have h0 := rankedDistances_length similarity index
    rw [hnil] at h0
    simp only [List.length_nil] at h0
    omega
  obtain ⟨h, t, ht⟩ := List.exists_cons_of_ne_nil hne
  have hself : (index, (similarity.getD index []).getD index 0)
      ∈ rankedDistances similarity index := by
    refine (rankedDistances_perm similarity index).mem_iff.mpr ?_
    simpa using enumerate_mem 0 index _ hlen
  have hhead : h = (index, (similarity.getD index []).getD index 0) := by
    have hh : h ∈ rankedDistances similarity index := by
      rw [ht]; exact List.mem_cons_self _ _
    rcases mem_rankedDistances_spec hh with ⟨hh1, hh2⟩
    by_cases hcase : h.1 = index
    · have : h = (h.1, h.2) := rfl
      rw [this, hcase, hh2, hcase]
    · exfalso
      have hlt : h.2 < (similarity.getD index []).getD index 0 := by
        rw [hh2]; exact hmax h.1 hh1 hcase
      have hmem : (index, (similarity.getD index []).getD index 0) ∈ t := by
        rcases List.mem_cons.mp (ht ▸ hself) with hc | hc
        · exfalso; exact hcase (by rw [← hc])
        · exact hc
      have hpw := rankedDistances_pairwise similarity index
      rw [ht] at hpw
      have hrb := (List.pairwise_cons.mp hpw).1 _ hmem
      rcases hrb with hrb | ⟨hrb, _⟩
      · exact absurd hrb (not_lt_of_lt hlt)
      · exact absurd hrb (ne_of_lt hlt)
  refine ⟨t, by rw [ht, hhead], ?_⟩
  intro x hx
  have hxd : x ∈ rankedDistances similarity index := by
    rw [ht]; exact List.mem_cons_of_mem _ hx
  have hxspec := mem_rankedDistances_spec hxd
  refine ⟨?_, hxspec.1⟩
  have hpw := rankedDistances_fst_ne similarity index
  rw [ht] at hpw
  have := (List.pairwise_cons.mp hpw).1 _ hx
  rw [hhead] at this
  exact fun hc => this (by rw [hc])

theorem firstTitleIndex_none_iff (title : String) (ms : List Movie) :
    firstTitleIndex title ms = none ↔ ∀ m ∈ ms, m.title ≠ title := by
  induction ms with
  | nil => simp [firstTitleIndex]
  | cons m ms ih =>
    by_cases hm : m.title = title
    · simp [firstTitleIndex, hm]
    · simp only [firstTitleIndex, if_neg hm, Option.map_eq_none', ih,
        List.mem_cons]
      constructor
      · rintro h x (hx | hx)
        · rw [hx]; exact hm
        · exact h x hx
      · intro h x hx
        exact h x (Or.inr hx)

theorem firstTitleIndex_some_spec {title : String} {ms : List Movie} {i : Nat}
    (h : firstTitleIndex title ms = some i) :
    i < ms.length ∧ (ms.getD i default).title = title
      ∧ ∀ j < i, (ms.getD j default).title ≠ title := by
  induction ms generalizing i with
  | nil => simp [firstTitleIndex] at h
  | cons m ms ih =>
    by_cases hm : m.title = title
    · rw [firstTitleIndex, if_pos hm] at h
      cases h
      exact ⟨by simp, by simpa using hm, by omega⟩
    · rw [firstTitleIndex, if_neg hm] at h
      rcases Option.map_eq_some'.mp h with ⟨i', hi', hii⟩
      rcases ih hi' with ⟨h1, h2, h3⟩
      subst hii
      refine ⟨by simpa using h1, by simpa [List.getD_cons_succ] using h2, ?_⟩
      intro j hj
      cases j with
      | zero => simpa using hm
      | succ j => simpa [List.getD_cons_succ] using h3 j (by omega)

theorem recommendK_eq_some (movies : List Movie) (similarity : List (List ℚ))
    (fp ft : Nat → Option String) (movie : String) (k index : Nat)
    (hidx : firstTitleIndex movie movies = some index) :
    recommendK movies similarity fp ft movie k
      = some ((rankedWindow similarity index k).map (mkEntry movies fp ft)) := by
  rw [recommendK, hidx, Option.map_some']

theorem recommendK_eq_none (movies : List Movie) (similarity : List (List ℚ))
    (fp ft : Nat → Option String) (movie : String) (k : Nat)
    (hidx : firstTitleIndex movie movies = none) :
    recommendK movies similarity fp ft movie k = none := by
  rw [recommendK, hidx, Option.map_none']

theorem mkEntry_title (movies : List Movie) (fp ft : Nat → Option String)
    (i : Nat × ℚ) :
    (mkEntry movies fp ft i).title = (movies.getD i.1 default).title := rfl

theorem getD_mem_of_lt {similarity : List (List ℚ)} {index : Nat}
    (h : index < similarity.length) :
    similarity.getD index [] ∈ similarity := by
  rw [List.getD_eq_getElem similarity [] h]
  exact List.getElem_mem h

theorem update_history_of_getLast {h : List Nat} {x : Nat}
    (hx : h.getLast? = some x) : update_history h x = h := by
  rw [update_history, if_neg]
  push_neg
  refine ⟨?_, hx⟩
  intro he
  rw [he] at hx
  simp [List.getLast?] at hx

theorem update_history_getLast (h : List Nat) (x : Nat) :
    (update_history h x).getLast? = some x := by
  rw [update_history]
  split
  · dsimp only
    split
    · rename_i hlong
      cases h with
      | nil => simp at hlong
      | cons a as =>
        have : ((a :: as) ++ [x]).tail = as ++ [x] := by simp
        rw [this, List.getLast?_concat]
    · exact List.getLast?_concat _
  · rename_i hcond
    push_neg at hcond
    exact hcond.2

theorem update_history_append {h : List Nat} {x : Nat}
    (hc : h = [] ∨ h.getLast? ≠ some x) (hlen : h.length < 5) :
    update_history h x = h ++ [x] := by
  rw [update_history, if_pos hc]
  dsimp only
  rw [if_neg]
  simp only [List.length_append, List.length_singleton]
  omega

theorem update_history_evict {h : List Nat} {x : Nat}
    (hlen : h.length = 5) (hc : h.getLast? ≠ some x) :
    update_history h x = h.tail ++ [x] := by
  rw [update_history, if_pos (Or.inr hc)]
  dsimp only
  rw [if_pos (by simp [hlen])]
  cases h with
  | nil => simp at hlen
  | cons a as => simp

theorem update_history_length_le {h : List Nat} (x : Nat)
    (hlen : h.length ≤ 5) : (update_history h x).length ≤ 5 := by
  rw [update_history]
  split
  · dsimp only
    split
    · rename_i hlong
      simp only [List.length_tail, List.length_append, List.length_singleton]
      omega
    · rename_i hshort
      push_neg at hshort
      exact hshort
  · exact hlen

theorem foldl_update_history_length_le (ids : List Nat) :
    ∀ h : List Nat, h.length ≤ 5 → (ids.foldl update_history h).length ≤ 5 := by
  induction ids with
  | nil => intro h hh; simpa using hh
  | cons i is ih =>
    intro h hh
    exact ih (update_history h i) (update_history_length_le i hh)

theorem runHistory_length_le (ids : List Nat) : (runHistory ids).length ≤ 5 :=
  foldl_update_history_length_le ids [] (by simp)

theorem map_const_none (w : List (Nat × ℚ)) :
    w.map (fun _ => (none : Option String)) = List.replicate w.length none := by
  induction w with
  | nil => rfl
  | cons x xs ih => simp [List.replicate_succ, ih]

theorem runHistory_six (a b c d e f : Nat)
    (h1 : b ≠ a) (h2 : c ≠ b) (h3 : d ≠ c) (h4 : e ≠ d) (h5 : f ≠ e) :
    runHistory [a, b, c, d, e, f] = [b, c, d, e, f] := by
  have g1 : ([a] : List Nat).getLast? = some a := by
    rw [show ([a] : List Nat) = [] ++ [a] from rfl, List.getLast?_concat]
  have g2 : ([a, b] : List Nat).getLast? = some b := by
    rw [show ([a, b] : List Nat) = [a] ++ [b] from rfl, List.getLast?_concat]
  have g3 : ([a, b, c] : List Nat).getLast? = some c := by
    rw [show ([a, b, c] : List Nat) = [a, b] ++ [c] from rfl, List.getLast?_concat]
  have g4 : ([a, b, c, d] : List Nat).getLast? = some d := by
    rw [show ([a, b, c, d] : List Nat) = [a, b, c] ++ [d] from rfl, List.getLast?_concat]
  have g5 : ([a, b, c, d, e] : List Nat).getLast? = some e := by
    rw [show ([a, b, c, d, e] : List Nat) = [a, b, c, d] ++ [e] from rfl,
      List.getLast?_concat]
  have s1 : update_history [] a = [a] :=
    update_history_append (Or.inl rfl) (by simp)
  have s2 : update_history [a] b = [a, b] :=
    update_history_append
      (Or.inr (by rw [g1]; exact fun hc => h1 (Option.some.inj hc).symm)) (by simp)
  have s3 : update_history [a, b] c = [a, b, c] :=
    update_history_append
      (Or.inr (by rw [g2]; exact fun hc => h2 (Option.some.inj hc).symm)) (by simp)
  have s4 : update_history [a, b, c] d = [a, b, c, d] :=
    update_history_append
      (Or.inr (by rw [g3]; exact fun hc => h3 (Option.some.inj hc).symm)) (by simp)
  have s5 : update_history [a, b, c, d] e = [a, b, c, d, e] :=
    update_history_append
      (Or.inr (by rw [g4]; exact fun hc => h4 (Option.some.inj hc).symm)) (by simp)
  have s6 : update_history [a, b, c, d, e] f = [b, c, d, e, f] := by
    rw [update_history_evict (by simp)
      (by rw [g5]; exact fun hc => h5 (Option.some.inj hc).symm)]
    rfl
  show List.foldl update_history [] [a, b, c, d, e, f] = [b, c, d, e, f]
  rw [List.foldl_cons, s1, List.foldl_cons, s2, List.foldl_cons, s3, List.foldl_cons,
    s4, List.foldl_cons, s5, List.foldl_cons, s6, List.foldl_nil]

/-- A two-movie catalog used in concrete counterexamples. -/
def catalogAB : List Movie := [⟨1, "A"⟩, ⟨2, "B"⟩]

/-- A 2x2 similarity matrix in which the self-similarity of row 0 is NOT
maximal in its row. -/
def cexSimLow : List (List ℚ) := [[1, 2], [2, 1]]

/-- A 2x2 similarity matrix in which every score ties, so the self-similarity
of every row is (non-strictly) maximal. -/
def cexSimFlat : List (List ℚ) := [[1, 1], [1, 1]]

/-- A three-movie catalog, also the catalog of the spec's worked example. -/
def catalogABC : List Movie := [⟨1, "A"⟩, ⟨2, "B"⟩, ⟨3, "C"⟩]

/-- A well-behaved 3x3 similarity matrix (symmetric, self-similarity strictly
maximal in every row), used to instantiate the universally quantified
theorems at a concrete input. -/
def simABC : List (List ℚ) := [[3, 1, 2], [1, 3, 2], [2, 2, 3]]

/-- C1 counterexample: with catalog `[(1,"A"),(2,"B")]` and the dimension-2
similarity matrix `[[1,2],[2,1]]`, the query `"A"` occurs in the catalog, yet
`recommend("A")` returns a sequence containing the query title `"A"` itself:
the sort puts row 1 (score 2) first, so dropping the first ranked entry drops
`"B"` and keeps the query row. -/
theorem recommend_includes_query_cex :
    cexSimLow.length = catalogAB.length
    ∧ (cexSimLow.all fun r => r.length == catalogAB.length) = true
    ∧ "A" ∈ catalogAB.map Movie.title
    ∧ "A" ∈ ((recommend catalogAB cexSimLow nullFetch nullFetch "A").getD []).map
        RecEntry.title := by
  decide

/-- C1 (amended): if additionally the query row's self-similarity is strictly
greater than every other score in its row, and the query title occurs in only
one catalog row, then no entry of the ranked window comes from the query's
resolved row, and the output of `recommend` never contains the query title. -/
theorem recommend_excludes_query_of_strict_selfmax
    (movies : List Movie) (similarity : List (List ℚ))
    (fp ft : Nat → Option String) (movie : String) (index : Nat)
    (hdim : similarity.length = movies.length)
    (hrows : ∀ r ∈ similarity, r.length = movies.length)
    (hidx : firstTitleIndex movie movies = some index)
    (hmax : ∀ j < movies.length, j ≠ index →
      (similarity.getD index []).getD j 0 < (similarity.getD index []).getD index 0)
    (huniq : ∀ j < movies.length, (movies.getD j default).title = movie → j = index) :
    (∀ x ∈ rankedWindow similarity index 5, x.1 ≠ index)
    ∧ movie ∉ ((recommend movies similarity fp ft movie).getD []).map
        RecEntry.title := by
  have hi : index < movies.length := (firstTitleIndex_some_spec hidx).1
  have hrow : (similarity.getD index []).length = movies.length :=
    hrows _ (getD_mem_of_lt (by omega))
  have hlen : index < (similarity.getD index []).length := by omega
  have hmax' : ∀ j < (similarity.getD index []).length, j ≠ index →
      (similarity.getD index []).getD j 0 < (similarity.getD index []).getD index 0 := by
    intro j hj hne
    exact hmax j (by omega) hne
  obtain ⟨t, ht, htp⟩ := rankedDistances_head_of_strictmax similarity index hlen hmax'
  have hwin : ∀ k : Nat, ∀ x ∈ rankedWindow similarity index k,
      x.1 ≠ index ∧ x.1 < movies.length := by
    intro k x hx
    rw [rankedWindow, ht] at hx
    simp only [List.drop_one, List.tail_cons] at hx
    rcases htp x (List.take_subset _ _ hx) with ⟨hne, hlt⟩
    exact ⟨hne, by omega⟩
  refine ⟨fun x hx => (hwin 5 x hx).1, ?_⟩
  rw [recommend, recommendK_eq_some movies similarity fp ft movie 5 index hidx]
  intro hmem
  rw [Option.getD_some, List.map_map] at hmem
  rcases List.mem_map.mp hmem with ⟨x, hx, hxt⟩
  rcases hwin 5 x hx with ⟨hne, hlt⟩
  have hxt' : (movies.getD x.1 default).title = movie := hxt
  exact hne (huniq x.1 hlt hxt')

/-- C1 witness: at the concrete strict-maximum input, `"A"` is not among the
recommended titles. -/
theorem recommend_excludes_query_witness :
    "A" ∉ ((recommend catalogABC simABC nullFetch nullFetch "A").getD []).map
        RecEntry.title :=
  (recommend_excludes_query_of_strict_selfmax catalogABC simABC nullFetch nullFetch
    "A" 0 (by decide) (by decide) (by decide) (by decide) (by decide)).2

/-- C2 counterexample: with catalog `[(1,"A"),(2,"B")]` and the all-ties
matrix `[[1,1],[1,1]]`, the query `"B"` resolves to row 1 and its
self-similarity is maximal in its row, yet the first entry of the row sorted
descending by score is row 0 (`"A"`), not the query: the stable sort keeps
the earlier tied row first, so dropping the first ranked entry does not
remove the self-match, which stays in the window. -/
theorem rankedDistances_first_not_query_cex :
    firstTitleIndex "B" catalogAB = some 1
    ∧ ((cexSimFlat.getD 1 []).all
        fun s => s ≤ (cexSimFlat.getD 1 []).getD 1 0) = true
    ∧ (rankedDistances cexSimFlat 1).head? = some (0, 1)
    ∧ (1, (1 : ℚ)) ∈ rankedWindow cexSimFlat 1 5 := by
  decide

/-- C2 (amended): if the query row's self-similarity is STRICTLY greater than
every other score in its row, then the first entry of the sorted row is the
query row itself, and dropping it and taking the next `k` entries removes
exactly the self-match: no window entry comes from the query row. -/
theorem rankedDistances_head_query_of_strict_selfmax
    (movies : List Movie) (similarity : List (List ℚ))
    (movie : String) (index k : Nat)
    (hdim : similarity.length = movies.length)
    (hrows : ∀ r ∈ similarity, r.length = movies.length)
    (hidx : firstTitleIndex movie movies = some index)
    (hmax : ∀ j < movies.length, j ≠ index →
      (similarity.getD index []).getD j 0 < (similarity.getD index []).getD index 0) :
    (rankedDistances similarity index).head?
      = some (index, (similarity.getD index []).getD index 0)
    ∧ ∀ x ∈ rankedWindow similarity index k, x.1 ≠ index := by
  have hi : index < movies.length := (firstTitleIndex_some_spec hidx).1
  have hrow : (similarity.getD index []).length = movies.length :=
    hrows _ (getD_mem_of_lt (by omega))
  have hlen : index < (similarity.getD index []).length := by omega
  have hmax' : ∀ j < (similarity.getD index []).length, j ≠ index →
      (similarity.getD index []).getD j 0 < (similarity.getD index []).getD index 0 := by
    intro j hj hne
    exact hmax j (by omega) hne
  obtain ⟨t, ht, htp⟩ := rankedDistances_head_of_strictmax similarity index hlen hmax'
  refine ⟨by rw [ht]; rfl, ?_⟩
  intro x hx
  rw [rankedWindow, ht] at hx
  simp only [List.drop_one, List.tail_cons] at hx
  exact (htp x (List.take_subset _ _ hx)).1

/-- C2 witness: at the concrete strict-maximum input, the first sorted entry
of row 0 is row 0 itself with its self-similarity score. -/
theorem rankedDistances_head_query_witness :
    (rankedDistances simABC 0).head? = some (0, 3) :=
  (rankedDistances_head_query_of_strict_selfmax catalogABC simABC "A" 0 5
    (by decide) (by decide) (by decide) (by decide)).1

/-- C3: for every catalog and matching-dimension similarity matrix, every
query title occurring in the catalog, and every slice width `k`, the sequence
returned by the ranker has length exactly `min k (catalog_size - 1)`; in the
source, where `k = 5` is hardcoded, `recommend` returns exactly
`min 5 (catalog_size - 1)` entries. -/
theorem recommend_output_length
    (movies : List Movie) (similarity : List (List ℚ))
    (fp ft : Nat → Option String) (movie : String) (index k : Nat)
    (hdim : similarity.length = movies.length)
    (hrows : ∀ r ∈ similarity, r.length = movies.length)
    (hidx : firstTitleIndex movie movies = some index) :
    ((recommendK movies similarity fp ft movie k).getD []).length
      = min k (movies.length - 1)
    ∧ ((recommend movies similarity fp ft movie).getD []).length
      = min 5 (movies.length - 1) := by
  have hi : index < movies.length := (firstTitleIndex_some_spec hidx).1
  have hrow : (similarity.getD index []).length = movies.length :=
    hrows _ (getD_mem_of_lt (by omega))
  have h1 : ∀ k' : Nat, ((recommendK movies similarity fp ft movie k').getD []).length
      = min k' (movies.length - 1) := by
    intro k'
    rw [recommendK_eq_some movies similarity fp ft movie k' index hidx,
      Option.getD_some, List.length_map, rankedWindow_length, hrow]
  exact ⟨h1 k, by rw [recommend]; exact h1 5⟩

/-- C3 witness: on the 3-movie catalog, `recommend "A"` returns
`min 5 (3 - 1) = 2` entries. -/
theorem recommend_output_length_witness :
    ((recommend catalogABC simABC nullFetch nullFetch "A").getD []).length = 2 :=
  (recommend_output_length catalogABC simABC nullFetch nullFetch "A" 0 7
    (by decide) (by decide) (by decide)).2

/-- C4: for every query title resolving to `index`, the ranked window is
ordered by weakly descending score, and any two entries with exactly equal
scores appear in their original catalog row order (stable ties, no secondary
key); the output of `recommend` is exactly this window mapped to rendered
entries, so it inherits that order. -/
theorem recommend_sorted_stable
    (movies : List Movie) (similarity : List (List ℚ))
    (fp ft : Nat → Option String) (movie : String) (index k : Nat)
    (hidx : firstTitleIndex movie movies = some index) :
    (rankedWindow similarity index k).Pairwise
      (fun a b => b.2 ≤ a.2 ∧ (a.2 = b.2 → a.1 < b.1))
    ∧ recommend movies similarity fp ft movie
      = some ((rankedWindow similarity index 5).map (mkEntry movies fp ft)) := by
  refine ⟨(rankedWindow_pairwise similarity index k).imp ?_,
    by rw [recommend]; exact recommendK_eq_some movies similarity fp ft movie 5 index hidx⟩
  intro a b hab
  refine ⟨le_snd_of_rankedBefore hab, ?_⟩
  intro heq
  rcases hab with h | ⟨_, hlt⟩
  · rw [heq] at h
    exact absurd h (lt_irrefl _)
  · exact hlt

/-- C4 witness: on the concrete catalog the output of `recommend` is the
ranked window of the resolved row mapped to entries. -/
theorem recommend_sorted_stable_witness :
    recommend catalogABC simABC nullFetch nullFetch "A"
      = some ((rankedWindow simABC 0 5).map (mkEntry catalogABC nullFetch nullFetch)) :=
  (recommend_sorted_stable catalogABC simABC nullFetch nullFetch "A" 0 3
    (by decide)).2

/-- C5: the query lookup fails exactly on a title with zero catalog matches,
and then `recommend` returns the error (`none`) rather than swallowing it
into an empty result; on a title with at least one match no error occurs and
the resolved row is the FIRST match in catalog order. -/
theorem recommend_notfound_first_match
    (movies : List Movie) (similarity : List (List ℚ))
    (fp ft : Nat → Option String) (movie : String) :
    (firstTitleIndex movie movies = none ↔ ∀ m ∈ movies, m.title ≠ movie)
    ∧ (firstTitleIndex movie movies = none →
        recommend movies similarity fp ft movie = none)
    ∧ ∀ index, firstTitleIndex movie movies = some index →
        (∃ l, recommend movies similarity fp ft movie = some l)
        ∧ index < movies.length
        ∧ (movies.getD index default).title = movie
        ∧ ∀ j < index, (movies.getD j default).title ≠ movie := by
  refine ⟨firstTitleIndex_none_iff movie movies, ?_, ?_⟩
  · intro hnone
    rw [recommend]
    exact recommendK_eq_none movies similarity fp ft movie 5 hnone
  · intro index hindex
    rcases firstTitleIndex_some_spec hindex with ⟨h1, h2, h3⟩
    refine ⟨⟨(rankedWindow similarity index 5).map (mkEntry movies fp ft), ?_⟩,
      h1, h2, h3⟩
    rw [recommend]
    exact recommendK_eq_some movies similarity fp ft movie 5 index hindex

/-- C5 witness: the absent title `"Z"` makes `recommend` return the error
value, not a silent empty result. -/
theorem recommend_notfound_witness :
    recommend catalogABC simABC nullFetch nullFetch "Z" = none :=
  (recommend_notfound_first_match catalogABC simABC nullFetch nullFetch "Z").2.1
    (by decide)

/-- C6: the titles produced by `recommend`, and their order, do not depend on
the poster/trailer oracles: two runs differing only in enrichment results
yield the same titles in the same order (and agree on success/failure of the
lookup); and when every enrichment attempt fails (`nullFetch`), the output
consists of the same titles with `none` posters and `none` trailers
throughout. -/
theorem recommend_independent_of_enrichment
    (movies : List Movie) (similarity : List (List ℚ))
    (p1 t1 p2 t2 : Nat → Option String) (movie : String) :
    ((recommend movies similarity p1 t1 movie).getD []).map RecEntry.title
      = ((recommend movies similarity p2 t2 movie).getD []).map RecEntry.title
    ∧ (recommend movies similarity p1 t1 movie).isSome
      = (recommend movies similarity p2 t2 movie).isSome
    ∧ ((recommend movies similarity nullFetch nullFetch movie).getD []).map
        RecEntry.poster
      = List.replicate
          ((recommend movies similarity nullFetch nullFetch movie).getD []).length none
    ∧ ((recommend movies similarity nullFetch nullFetch movie).getD []).map
        RecEntry.trailer
      = List.replicate
          ((recommend movies similarity nullFetch nullFetch movie).getD []).length none := by
  cases hfi : firstTitleIndex movie movies with
  | none =>
    have e1 := recommendK_eq_none movies similarity p1 t1 movie 5 hfi
    have e2 := recommendK_eq_none movies similarity p2 t2 movie 5 hfi
    have e3 := recommendK_eq_none movies similarity nullFetch nullFetch movie 5 hfi
    simp only [recommend]
    rw [e1, e2, e3]
    simp
  | some index =>
    have e1 := recommendK_eq_some movies similarity p1 t1 movie 5 index hfi
    have e2 := recommendK_eq_some movies similarity p2 t2 movie 5 index hfi
    have e3 := recommendK_eq_some movies similarity nullFetch nullFetch movie 5 index hfi
    simp only [recommend]
    rw [e1, e2, e3]
    simp only [Option.getD_some, Option.isSome_some, List.map_map, List.length_map]
    have hc1 : (RecEntry.title ∘ mkEntry movies p1 t1)
        = (RecEntry.title ∘ mkEntry movies p2 t2) := funext fun x => rfl
    have hc2 : (RecEntry.poster ∘ mkEntry movies nullFetch nullFetch)
        = fun _ : Nat × ℚ => (none : Option String) := funext fun x => rfl
    have hc3 : (RecEntry.trailer ∘ mkEntry movies nullFetch nullFetch)
        = fun _ : Nat × ℚ => (none : Option String) := funext fun x => rfl
    exact ⟨by rw [hc1], trivial, by rw [hc2, map_const_none], by rw [hc3, map_const_none]⟩

/-- The spec's worked example: catalog `[(1,"A"),(2,"B"),(3,"C")]` with the
similarity row for `"A"` equal to `[1.0, 0.9, 0.9]` (the other rows complete
the matrix symmetrically). -/
def simExample : List (List ℚ) := [[1, 9/10, 9/10], [9/10, 1, 4/5], [9/10, 4/5, 1]]

/-- C7: on the worked example, `recommend "A"` with slice width 2 returns the
titles `["B", "C"]` in that order — the 0.9-score tie between rows 1 and 2 is
broken by catalog row order — and the source's hardcoded-width `recommend`
returns the same two titles. -/
theorem recommend_example_tie_stability :
    ((recommendK catalogABC simExample nullFetch nullFetch "A" 2).getD []).map
        RecEntry.title = ["B", "C"]
    ∧ ((recommend catalogABC simExample nullFetch nullFetch "A").getD []).map
        RecEntry.title = ["B", "C"] := by
  constructor <;>
    norm_num [recommend, recommendK, rankedWindow, rankedDistances, sortDesc,
      insertDesc, enumerate, firstTitleIndex, mkEntry, catalogABC, simExample,
      nullFetch]

/-- C8 counterexample: from the full history `[0,1,2,3,4]` (length 5, last
entry 4 ≠ 9), recording the fresh id 9 twice does NOT grow the length by 1:
the first recording appends 9 and evicts the oldest entry (length stays 5),
the second recording is a no-op, so the net growth is 0. -/
theorem update_history_growth_cex :
    ([0, 1, 2, 3, 4] : List Nat).getLast? ≠ some 9
    ∧ update_history (update_history [0, 1, 2, 3, 4] 9) 9 = [1, 2, 3, 4, 9]
    ∧ ¬ (update_history (update_history [0, 1, 2, 3, 4] 9) 9).length
        = ([0, 1, 2, 3, 4] : List Nat).length + 1 := by
  decide

/-- C8 (amended): recording an id equal to the most-recently recorded one
leaves the history completely unchanged, so recording the same id twice
consecutively changes the history exactly as recording it once — the length
grows by 1 when the history is below capacity and by 0 at capacity, never
by 2; recording any other id (or recording into an empty history) appends it
as the new most-recent entry. -/
theorem update_history_dedup (h : List Nat) (x : Nat) :
    (h.getLast? = some x → update_history h x = h)
    ∧ update_history (update_history h x) x = update_history h x
    ∧ ((h = [] ∨ h.getLast? ≠ some x) →
        (update_history h x).getLast? = some x
        ∧ (h.length < 5 → (update_history h x).length = h.length + 1)) := by
  refine ⟨fun hx => update_history_of_getLast hx,
    update_history_of_getLast (update_history_getLast h x),
    fun hc => ⟨update_history_getLast h x, fun hlen => ?_⟩⟩
  rw [update_history_append hc hlen]
  simp

/-- C8 witness: recording 7 on a history already ending in 7 changes
nothing. -/
theorem update_history_dedup_witness :
    update_history [3, 7] 7 = [3, 7] :=
  (update_history_dedup [3, 7] 7).1 (by decide)

/-- C9: the history length never exceeds 5 on any state reachable from the
empty session by `update_history` calls; when an append would exceed the cap
the oldest entry is evicted first (FIFO); and recording 6 pairwise-fresh ids
from empty yields exactly the most recent 5 in order. -/
theorem history_bounded_fifo (ids : List Nat) (h : List Nat)
    (x a b c d e f : Nat) :
    (runHistory ids).length ≤ 5
    ∧ (h.length = 5 → h.getLast? ≠ some x → update_history h x = h.tail ++ [x])
    ∧ (b ≠ a → c ≠ b → d ≠ c → e ≠ d → f ≠ e →
        runHistory [a, b, c, d, e, f] = [b, c, d, e, f]) :=
  ⟨runHistory_length_le ids,
    fun h5 hc => update_history_evict h5 hc,
    fun h1 h2 h3 h4 h5 => runHistory_six a b c d e f h1 h2 h3 h4 h5⟩

/-- C9 witness: recording the 6 distinct ids 1..6 from the empty history
yields exactly the most recent 5, oldest evicted first. -/
theorem history_bounded_fifo_witness :
    runHistory [1, 2, 3, 4, 5, 6] = [2, 3, 4, 5, 6] :=
  (history_bounded_fifo [1, 2, 3, 4, 5, 6] [0, 0, 0, 0, 0] 1 1 2 3 4 5 6).2.2
    (by decide) (by decide) (by decide) (by decide) (by decide)

/-- C10: `safe_image` returns any non-empty URL unchanged, and returns the
fixed placeholder exactly on the falsy inputs — a missing (`none`) or empty
(`""`) URL. -/
theorem safe_image_placeholder (u : String) :
    (u ≠ "" → safe_image (some u) = u)
    ∧ safe_image none = no_image_icon
    ∧ safe_image (some "") = no_image_icon := by
  refine ⟨?_, rfl, rfl⟩
  intro hu
  simp [safe_image, hu]

/-- C10 witness: a concrete non-empty URL passes through unchanged. -/
theorem safe_image_placeholder_witness :
    safe_image (some "https://image.tmdb.org/t/p/w500/x.jpg")
      = "https://image.tmdb.org/t/p/w500/x.jpg" :=
  (safe_image_placeholder "https://image.tmdb.org/t/p/w500/x.jpg").1 (by decide)
